import Mathlib

/-!
Verification of the NPE quiz application core (`app.py`): CSV row validation
(`clean_and_validate`, `_canon_domain`), quiz-item construction with option
shuffling and re-lettering (`prepare_items`), and answer scoring (`main`).

Strings are modelled as Lean `String`s; the Python string operations used by
the code (`strip`, `upper`, `lower`, `title`, `startswith`, the regex
whitespace collapse) are embedded as explicit functions over the character
list.  The random sample and the per-record `random.shuffle` are modelled as
explicit function parameters, constrained in theorems by the contracts the
Python library guarantees (a sample of `n` rows from at least `n` rows has
exactly `n` rows; a shuffle of a list is a permutation of it).
-/

namespace NPEQuiz

/-- Python whitespace characters (the ASCII fragment of `\s` / `str.strip`). -/
def isPySpace (c : Char) : Bool :=
  c = ' ' || c = '\t' || c = '\n' || c = '\r' || c = '\x0b' || c = '\x0c'

/-- Drop leading whitespace characters. -/
def dropLeadWS : List Char → List Char
  | [] => []
  | c :: t => if isPySpace c then dropLeadWS t else c :: t

/-- Drop trailing whitespace characters. -/
def dropTrailWS : List Char → List Char
  | [] => []
  | c :: t =>
    match dropTrailWS t with
    | [] => if isPySpace c then [] else [c]
    | d :: ds => c :: d :: ds

/-- Python `str.strip()` on a character list. -/
def stripChars (l : List Char) : List Char :=
  dropLeadWS (dropTrailWS l)

/-- Replace each maximal run of whitespace by a single space
(the regex substitution `\s+` → `" "`).  The flag records whether the
previous character was part of a whitespace run. -/
def collapseWSAux : Bool → List Char → List Char
  | _, [] => []
  | prevWS, c :: t =>
    if isPySpace c then
      if prevWS then collapseWSAux true t
      else ' ' :: collapseWSAux true t
    else c :: collapseWSAux false t

/-- `str.replace(r"\s+", " ")` as used on every object column. -/
def pyCollapse (s : String) : String := ⟨collapseWSAux false s.data⟩

/-- Python `str.strip()`. -/
def pyStrip (s : String) : String := ⟨stripChars s.data⟩

/-- Python `str.upper()` (ASCII model). -/
def pyUpper (s : String) : String := ⟨s.data.map Char.toUpper⟩

/-- Python `str.lower()` (ASCII model). -/
def pyLower (s : String) : String := ⟨s.data.map Char.toLower⟩

/-- Python `str.title()`: a letter is uppercased when the previous character
is not a letter, lowercased otherwise (ASCII model).  The flag records
whether the previous character was a letter. -/
def pyTitleAux : Bool → List Char → List Char
  | _, [] => []
  | prevAlpha, c :: t =>
    if c.isAlpha then
      (if prevAlpha then c.toLower else c.toUpper) :: pyTitleAux true t
    else c :: pyTitleAux false t

/-- Python `str.title()`. -/
def pyTitle (s : String) : String := ⟨pyTitleAux false s.data⟩

/-- `p` is a prefix of `l` (character lists). -/
def strStarts : List Char → List Char → Bool
  | [], _ => true
  | _ :: _, [] => false
  | p :: ps, c :: cs => p == c && strStarts ps cs

/-- Python `s.startswith(p)`. -/
def pyStartsWith (s p : String) : Bool := strStarts p.data s.data

/-- `list("ABCDE")`: the five valid answer letters, as one-character strings
(Python compares the letter against one-character strings). -/
def letters : List String := ["A", "B", "C", "D", "E"]

/-- One raw CSV row, with the nine REQUIRED_COLS of `app.py`
(a missing column is synthesised as the empty string, so every row has all
nine fields). -/
structure Row where
  question : String
  optionA : String
  optionB : String
  optionC : String
  optionD : String
  optionE : String
  correct_answer : String
  explanation : String
  domain : String
deriving DecidableEq

/-- `r.get(f"Option_{lab}", "")`: the option field addressed by a
one-character letter string; an unknown key yields the default `""`. -/
def getOpt (r : Row) (lab : String) : String :=
  if lab = "A" then r.optionA
  else if lab = "B" then r.optionB
  else if lab = "C" then r.optionC
  else if lab = "D" then r.optionD
  else if lab = "E" then r.optionE
  else ""

/-- `CANON_DOMAINS`: lower-cased canonical domain names mapped to their
display form (`DOMAIN_OPTIONS` minus `"All"`). -/
def CANON_DOMAINS (v : String) : Option String :=
  if v = "ethics" then some "Ethics"
  else if v = "assessment" then some "Assessment"
  else if v = "interventions" then some "Interventions"
  else if v = "communication" then some "Communication"
  else none

/-- `_canon_domain` from `app.py`: map arbitrary domain text to the
canonical set; return `""` if no match. -/
def canon_domain (val : String) : String :=
  let v := pyLower (pyStrip val)
  if v = "" then ""
  else if pyStartsWith v "ethic" then "Ethics"
  else if pyStartsWith v "assess" then "Assessment"
  else if pyStartsWith v "interven" || pyStartsWith v "treat" || pyStartsWith v "therapy" then
    "Interventions"
  else if pyStartsWith v "comm" then "Communication"
  else (CANON_DOMAINS v).getD ""

/-- The per-cell normalisation `clean_and_validate` applies to every object
column: collapse whitespace runs, strip, then map the literal `"nan"`
to `""`. -/
def normCell (s : String) : String :=
  let t := pyStrip (pyCollapse s)
  if t = "nan" then "" else t

/-- The whole-table normalisation of `clean_and_validate`: every column is
normalised, then the `Domain` column is canonicalised. -/
def normalizeRow (r : Row) : Row where
  question := normCell r.question
  optionA := normCell r.optionA
  optionB := normCell r.optionB
  optionC := normCell r.optionC
  optionD := normCell r.optionD
  optionE := normCell r.optionE
  correct_answer := normCell r.correct_answer
  explanation := normCell r.explanation
  domain := canon_domain (normCell r.domain)

/-- The three per-row acceptance checks of `clean_and_validate`, as a single
predicate on a (normalised) row: non-empty question, stripped-and-uppercased
`Correct_Answer` among A–E, and a non-empty option at that letter. -/
def acceptsRow (r : Row) : Bool :=
  r.question != "" &&
  (letters.contains (pyUpper (pyStrip r.correct_answer)) &&
   pyStrip (getOpt r (pyUpper (pyStrip r.correct_answer))) != "")

/-- The lower-cased stems of the rows before position `j` that have a
non-empty question — exactly the contents of the validator's running
`seen_stems` set when row `j` is examined (starting from an empty set). -/
def stemsBefore (rows : List Row) (j : Nat) : List String :=
  ((rows.take j).filter (fun r => r.question != "")).map (fun r => pyLower r.question)

/-- The row loop of `clean_and_validate`: `i` is the identifier of the first
row of `rows`, `seen` the running set of lower-cased stems.  Returns the
accepted rows (in order) and the ordered issue list. -/
def validateGo : Nat → List Row → List String → List Row × List (Nat × String)
  | _, [], _ => ([], [])
  | i, r :: rest, seen =>
    if r.question = "" then
      let res := validateGo (i + 1) rest seen
      (res.1, (i, "Missing Question") :: res.2)
    else
      let k := pyLower r.question
      let dup := seen.contains k
      let seen2 := if dup then seen else k :: seen
      let dupIss : List (Nat × String) :=
        if dup then [(i, "Duplicate Question stem")] else []
      let ca := pyUpper (pyStrip r.correct_answer)
      let res := validateGo (i + 1) rest seen2
      if !(letters.contains ca) then
        (res.1, dupIss ++ (i, "Correct_Answer not in A–E") :: res.2)
      else if pyStrip (getOpt r ca) = "" then
        (res.1, dupIss ++ (i, "Correct_Answer points to empty/missing option") :: res.2)
      else
        (r :: res.1, dupIss ++ res.2)

/-- `clean_and_validate` from `app.py`: normalise every row, run the row
loop, and additionally report the accepted rows missing an Explanation or
Domain.  Returns `(df_ok, issues, missing_report)`. -/
def clean_and_validate (rows : List Row) : List Row × List (Nat × String) × List Row :=
  let dfn := rows.map normalizeRow
  let res := validateGo 0 dfn []
  (res.1, res.2, res.1.filter (fun r => r.explanation = "" || r.domain = ""))

/-- The issue descriptions the validator loop emits while examining a single
row, given the stem set `seen` at that point (used to decompose
`validateGo` one row at a time). -/
def headMsgs (r : Row) (seen : List String) : List String :=
  if r.question = "" then ["Missing Question"]
  else
    (if pyLower r.question ∈ seen then ["Duplicate Question stem"] else []) ++
    (if pyUpper (pyStrip r.correct_answer) ∈ letters then
       (if pyStrip (getOpt r (pyUpper (pyStrip r.correct_answer))) = "" then
          ["Correct_Answer points to empty/missing option"]
        else [])
     else ["Correct_Answer not in A–E"])

/-- The `(row identifier, issue)` pairs emitted for one row. -/
def headIssues (i : Nat) (r : Row) (seen : List String) : List (Nat × String) :=
  (headMsgs r seen).map (fun m => (i, m))

/-- The stem set after the validator loop has examined one row. -/
def seenNext (r : Row) (seen : List String) : List String :=
  if r.question = "" then seen
  else if pyLower r.question ∈ seen then seen
  else pyLower r.question :: seen

/-- One display option of a built item: display letter, original letter,
option text (`{"disp_lab", "orig_lab", "text"}` in `prepare_items`). -/
structure DispOpt where
  disp_lab : String
  orig_lab : String
  text : String
deriving DecidableEq

/-- One quiz item (`{"row", "disp", "correct_disp"}` in `prepare_items`). -/
structure Item where
  row : Row
  disp : List DispOpt
  correct_disp : Option String
deriving DecidableEq

/-- The non-empty `(letter, stripped text)` pairs of a row, in original
A–E order (`prepare_items` lines 203–204). -/
def nonEmptyOpts (r : Row) : List (String × String) :=
  (letters.map (fun lab => (lab, pyStrip (getOpt r lab)))).filter (fun p => p.2 != "")

/-- The per-record item construction of `prepare_items` (lines 201–221),
with the `random.shuffle` call abstracted as the function `shuffle`. -/
def buildItem (r : Row) (shuffle : List (String × String) → List (String × String)) : Item :=
  let orig := shuffle (nonEmptyOpts r)
  let displayLabels := letters.take orig.length
  let disp := (displayLabels.zip orig).map (fun p => DispOpt.mk p.1 p.2.1 p.2.2)
  let origCorrect := pyUpper r.correct_answer
  { row := r
    disp := disp
    correct_disp := (disp.find? (fun d => d.orig_lab == origCorrect)).map DispOpt.disp_lab }

/-- The domain filter of `prepare_items` (lines 187–189): filter only when
the requested list is non-empty and no element title-cases to `"All"`. -/
def domainFiltered (domains : List String) (df : List Row) : List Row :=
  if !domains.isEmpty && !((domains.map pyTitle).contains "All") then
    df.filter (fun r => (domains.map pyLower).contains (pyLower r.domain))
  else df

/-- `prepare_items` from `app.py`: filter by domain, return `[]` on an empty
filtered set, clamp the requested count, sample, and build one item per
sampled row.  `sample` abstracts `df.sample`, `shuffle i` the shuffle used
for the `i`-th sampled row. -/
def prepare_items (df : List Row) (domains : List String) (num : Nat)
    (sample : List Row → Nat → List Row)
    (shuffle : Nat → List (String × String) → List (String × String)) : List Item :=
  let df1 := domainFiltered domains df
  if df1.isEmpty then []
  else
    let n := if df1.length < num then df1.length else num
    let rows := sample df1 n
    rows.enum.map (fun p => buildItem p.2 (shuffle p.1))

/-- `is_correct = (chosen_lab == (correct_disp or ""))` (line 420). -/
def isCorrectSub (chosen : String) (correctDisp : Option String) : Bool :=
  chosen == correctDisp.getD ""

/-- One submission event (lines 420–427): the score increments exactly on a
correct submission. -/
def scoreStep (score : Nat) (chosen : String) (correctDisp : Option String) : Nat :=
  if isCorrectSub chosen correctDisp then score + 1 else score

/-- The session score after a sequence of `(chosen letter, correct display
letter)` submissions, starting from `score = 0` (`start_quiz` line 226). -/
def sessionScore (subs : List (String × Option String)) : Nat :=
  subs.foldl (fun sc p => scoreStep sc p.1 p.2) 0

/-! ### Concrete example rows (used to instantiate theorems) -/

/-- A row with all fields empty (used as a `getD` default). -/
def emptyRow : Row := ⟨"", "", "", "", "", "", "", "", ""⟩

/-- A valid row: question `"Q"`, option A `"x"`, correct answer `"A"`. -/
def okRow : Row := ⟨"Q", "x", "", "", "", "", "A", "", ""⟩

/-- A row rejected by validation: correct answer `"F"` is not in A–E. -/
def cexRowF : Row := ⟨"Q", "x", "", "", "", "", "F", "", ""⟩

/-- A valid row whose `Correct_Answer` cell is the lower-case `"a"`. -/
def cexRowLower : Row := ⟨"Q", "x", "", "", "", "", "a", "", ""⟩

/-- A valid two-option row in the Ethics domain. -/
def wRowEthics : Row := ⟨"Q2", "x", "y", "", "", "", "A", "", "Ethics"⟩

/-! ### Helper lemmas: idempotence of stripping, and normalised cells -/

lemma dropLeadWS_dropLeadWS (l : List Char) : dropLeadWS (dropLeadWS l) = dropLeadWS l := by
  induction l with
  | nil => rfl
  | cons c t ih =>
    by_cases h : isPySpace c
    · simpa [dropLeadWS, h] using ih
    · simp [dropLeadWS, h]

lemma dropTrailWS_cons_of (c : Char) (u : List Char) (e : Char) (es : List Char)
    (hu : dropTrailWS u = e :: es) : dropTrailWS (c :: u) = c :: e :: es := by
  rw [dropTrailWS, hu]

lemma dropTrailWS_dropTrailWS (l : List Char) :
    dropTrailWS (dropTrailWS l) = dropTrailWS l := by
  induction l with
  | nil => rfl
  | cons c t ih =>
    cases htd : dropTrailWS t with
    | nil =>
      by_cases h : isPySpace c
      · simp [dropTrailWS, htd, h]
      · simp [dropTrailWS, htd, h]
    | cons d ds =>
      rw [htd] at ih
      rw [dropTrailWS_cons_of c t d ds htd]
      exact dropTrailWS_cons_of c (d :: ds) d ds ih

lemma dropTrailWS_dropLeadWS (l : List Char) (h : dropTrailWS l = l) :
    dropTrailWS (dropLeadWS l) = dropLeadWS l := by
  induction l with
  | nil => rfl
  | cons c t ih =>
    by_cases hc : isPySpace c
    · have ht : dropTrailWS t = t := by
        cases htd : dropTrailWS t with
        | nil =>
          simp only [dropTrailWS, htd] at h
          simp [hc] at h
        | cons d ds =>
          simp only [dropTrailWS, htd] at h
          exact ((List.cons.injEq _ _ _ _).mp h).2
      simpa [dropLeadWS, hc] using ih ht
    · simpa [dropLeadWS, hc] using h

lemma stripChars_stripChars (l : List Char) : stripChars (stripChars l) = stripChars l := by
  unfold stripChars
  rw [dropTrailWS_dropLeadWS _ (dropTrailWS_dropTrailWS l), dropLeadWS_dropLeadWS]

lemma pyStrip_pyStrip (s : String) : pyStrip (pyStrip s) = pyStrip s := by
  unfold pyStrip
  exact congrArg String.mk (stripChars_stripChars s.data)

lemma pyStrip_normCell (s : String) : pyStrip (normCell s) = normCell s := by
  unfold normCell
  by_cases h : pyStrip (pyCollapse s) = "nan"
  · simp only [h, if_pos rfl]
    rfl
  · simp only [if_neg h]
    exact pyStrip_pyStrip _

/-! ### Helper lemmas: the validator loop -/

/-- The accepted rows of the loop are exactly the rows passing the three
checks, in order; the running stem set does not influence acceptance. -/
lemma validateGo_fst (i : Nat) (rows : List Row) (seen : List String) :
    (validateGo i rows seen).1 = rows.filter acceptsRow := by
  induction rows generalizing i seen with
  | nil => rfl
  | cons r rest ih =>
    by_cases hq : r.question = ""
    · have ha : acceptsRow r = false := by simp [acceptsRow, hq]
      simp [validateGo, hq, List.filter_cons, ha, ih]
    · by_cases hca : pyUpper (pyStrip r.correct_answer) ∈ letters
      · by_cases hopt : pyStrip (getOpt r (pyUpper (pyStrip r.correct_answer))) = ""
        · have ha : acceptsRow r = false := by simp [acceptsRow, hca, hopt]
          simp [validateGo, hq, hca, hopt, List.filter_cons, ha, ih]
        · have ha : acceptsRow r = true := by simp [acceptsRow, hq, hca, hopt]
          simp [validateGo, hq, hca, hopt, List.filter_cons, ha, ih]
      · have ha : acceptsRow r = false := by simp [acceptsRow, hca]
        simp [validateGo, hq, hca, List.filter_cons, ha, ih]

/-- Decomposition of the issue list of the validator loop, one row at a
time. -/
lemma validateGo_issues_cons (i : Nat) (r : Row) (rest : List Row) (seen : List String) :
    (validateGo i (r :: rest) seen).2 =
      headIssues i r seen ++ (validateGo (i + 1) rest (seenNext r seen)).2 := by
  by_cases hq : r.question = ""
  · simp [validateGo, headIssues, headMsgs, seenNext, hq]
  · by_cases hdup : pyLower r.question ∈ seen
    · by_cases hca : pyUpper (pyStrip r.correct_answer) ∈ letters
      · by_cases hopt : pyStrip (getOpt r (pyUpper (pyStrip r.correct_answer))) = "" <;>
          simp [validateGo, headIssues, headMsgs, seenNext, hq, hdup, hca, hopt]
      · simp [validateGo, headIssues, headMsgs, seenNext, hq, hdup, hca]
    · by_cases hca : pyUpper (pyStrip r.correct_answer) ∈ letters
      · by_cases hopt : pyStrip (getOpt r (pyUpper (pyStrip r.correct_answer))) = "" <;>
          simp [validateGo, headIssues, headMsgs, seenNext, hq, hdup, hca, hopt]
      · simp [validateGo, headIssues, headMsgs, seenNext, hq, hdup, hca]

/-- Every per-row issue carries the identifier of that row. -/
lemma headIssues_fst (i : Nat) (r : Row) (seen : List String) :
    ∀ p ∈ headIssues i r seen, p.1 = i := by
  intro p hp
  simp only [headIssues, List.mem_map] at hp
  obtain ⟨m, _, rfl⟩ := hp
  rfl

/-- The duplicate-stem issue is emitted for a row exactly when its question
is non-empty and its lower-cased stem is already in the running set. -/
lemma dup_mem_headMsgs (r : Row) (seen : List String) :
    "Duplicate Question stem" ∈ headMsgs r seen ↔
      r.question ≠ "" ∧ pyLower r.question ∈ seen := by
  by_cases hq : r.question = "" <;>
  by_cases hdup : pyLower r.question ∈ seen <;>
  by_cases hca : pyUpper (pyStrip r.correct_answer) ∈ letters <;>
  by_cases hopt : pyStrip (getOpt r (pyUpper (pyStrip r.correct_answer))) = "" <;>
  simp [headMsgs, hq, hdup, hca, hopt]

/-- A row failing one of the three checks always yields at least one
issue. -/
lemma headMsgs_ne_nil (r : Row) (seen : List String) (h : acceptsRow r = false) :
    headMsgs r seen ≠ [] := by
  by_cases hq : r.question = "" <;>
  by_cases hdup : pyLower r.question ∈ seen <;>
  by_cases hca : pyUpper (pyStrip r.correct_answer) ∈ letters <;>
  by_cases hopt : pyStrip (getOpt r (pyUpper (pyStrip r.correct_answer))) = "" <;>
  simp [acceptsRow, hq, hdup, hca, hopt] at h ⊢ <;>
  simp [headMsgs, hq, hdup, hca, hopt]

/-- All issue identifiers produced by the loop are at least the identifier
of its first row. -/
lemma validateGo_issue_ge (rows : List Row) :
    ∀ (i : Nat) (seen : List String) (p : Nat × String),
      p ∈ (validateGo i rows seen).2 → i ≤ p.1 := by
  induction rows with
  | nil => intro i seen p hp; simp [validateGo] at hp
  | cons r rest ih =>
    intro i seen p hp
    rw [validateGo_issues_cons] at hp
    rcases List.mem_append.mp hp with h | h
    · have := headIssues_fst i r seen p h
      omega
    · exact Nat.le_of_succ_le (ih (i + 1) _ p h)

/-- The issue list is ordered by row identifier. -/
lemma validateGo_sorted (rows : List Row) :
    ∀ (i : Nat) (seen : List String),
      (validateGo i rows seen).2.Pairwise (fun a b => a.1 ≤ b.1) := by
  induction rows with
  | nil => intro i seen; simp [validateGo]
  | cons r rest ih =>
    intro i seen
    rw [validateGo_issues_cons, List.pairwise_append]
    refine ⟨?_, ih _ _, ?_⟩
    · simp only [headIssues]
      exact (List.pairwise_map).mpr (List.pairwise_of_forall (fun _ _ => Nat.le_refl i))
    · intro a ha b hb
      have h1 := headIssues_fst i r seen a ha
      have h2 := validateGo_issue_ge rest (i + 1) _ b hb
      omega

/-- A row failing acceptance contributes an issue recorded under its own
row identifier. -/
lemma validateGo_dropped (rows : List Row) :
    ∀ (i : Nat) (seen : List String) (j : Nat) (hj : j < rows.length),
      acceptsRow (rows.get ⟨j, hj⟩) = false →
      ∃ d, (i + j, d) ∈ (validateGo i rows seen).2 := by
  induction rows with
  | nil => intro i seen j hj; simp at hj
  | cons r rest ih =>
    intro i seen j hj h
    rw [validateGo_issues_cons]
    cases j with
    | zero =>
      have h0 : acceptsRow r = false := h
      obtain ⟨m, hm⟩ := List.exists_mem_of_ne_nil _ (headMsgs_ne_nil r seen h0)
      refine ⟨m, List.mem_append_left _ ?_⟩
      simp only [headIssues, List.mem_map, Nat.add_zero]
      exact ⟨m, hm, rfl⟩
    | succ j2 =>
      have hj2 : j2 < rest.length := by simpa using hj
      have h2 : acceptsRow (rest.get ⟨j2, hj2⟩) = false := h
      obtain ⟨d, hd⟩ := ih (i + 1) (seenNext r seen) j2 hj2 h2
      refine ⟨d, ?_⟩
      have harith : i + (j2 + 1) = i + 1 + j2 := by omega
      rw [harith]
      exact List.mem_append_right _ hd

lemma stemsBefore_zero (rows : List Row) : stemsBefore rows 0 = [] := rfl

lemma stemsBefore_cons (r : Row) (rest : List Row) (j : Nat) :
    stemsBefore (r :: rest) (j + 1) =
      (if r.question = "" then [] else [pyLower r.question]) ++ stemsBefore rest j := by
  by_cases hq : r.question = "" <;> simp [stemsBefore, List.filter_cons, hq]

/-- Inserting a row's stem into the running set changes later membership
tests exactly as if the stem list of that row were appended to the set. -/
lemma seenNext_mem (r : Row) (seen A : List String) (x : String) :
    x ∈ seenNext r seen ++ A ↔
      x ∈ seen ++ ((if r.question = "" then [] else [pyLower r.question]) ++ A) := by
  unfold seenNext
  by_cases hq : r.question = ""
  · simp [hq]
  · by_cases hdup : pyLower r.question ∈ seen
    · simp only [if_neg hq, if_pos hdup, List.mem_append, List.mem_singleton]
      constructor
      · rintro (h | h)
        · exact Or.inl h
        · exact Or.inr (Or.inr h)
      · rintro (h | (rfl | h))
        · exact Or.inl h
        · exact Or.inl hdup
        · exact Or.inr h
    · simp only [if_neg hq, if_neg hdup, List.mem_append, List.mem_cons,
        List.mem_singleton]
      tauto

/-- Exact characterisation of the duplicate-stem issues: row `j` is flagged
as a duplicate exactly when its question is non-empty and its lower-cased
stem occurs in the initial stem set or among the stems of the earlier rows
with a non-empty question (accepted or not). -/
lemma validateGo_dup (rows : List Row) :
    ∀ (i : Nat) (seen : List String) (j : Nat),
      ((i + j, "Duplicate Question stem") ∈ (validateGo i rows seen).2 ↔
        ∃ hj : j < rows.length,
          (rows.get ⟨j, hj⟩).question ≠ "" ∧
          pyLower (rows.get ⟨j, hj⟩).question ∈ seen ++ stemsBefore rows j) := by
  induction rows with
  | nil => intro i seen j; simp [validateGo]
  | cons r rest ih =>
    intro i seen j
    rw [validateGo_issues_cons, List.mem_append]
    cases j with
    | zero =>
      simp only [Nat.add_zero]
      constructor
      · rintro (h | h)
        · have hm : "Duplicate Question stem" ∈ headMsgs r seen := by
            simp only [headIssues, List.mem_map] at h
            obtain ⟨m, hm, he⟩ := h
            obtain ⟨-, rfl⟩ := Prod.mk.injEq .. ▸ (Prod.mk.inj he)
            exact hm
          have hh := (dup_mem_headMsgs r seen).mp hm
          exact ⟨by simp, hh.1, by simpa [stemsBefore_zero] using hh.2⟩
        · exfalso
          have h2 : i + 1 ≤ i := validateGo_issue_ge rest (i + 1) (seenNext r seen) _ h
          omega
      · rintro ⟨hj, hqne, hmem⟩
        left
        have hseen : pyLower r.question ∈ seen := by
          simpa [stemsBefore_zero] using hmem
        have hm := (dup_mem_headMsgs r seen).mpr ⟨hqne, hseen⟩
        simp only [headIssues, List.mem_map]
        exact ⟨_, hm, rfl⟩
    | succ j2 =>
      have harith : i + (j2 + 1) = i + 1 + j2 := by omega
      constructor
      · rintro (h | h)
        · have h2 : i + (j2 + 1) = i := headIssues_fst i r seen _ h
          omega
        · rw [harith] at h
          obtain ⟨hj2, hq2, hmem2⟩ := (ih (i + 1) (seenNext r seen) j2).mp h
          refine ⟨by simpa using hj2, hq2, ?_⟩
          rw [show (r :: rest).get ⟨j2 + 1, by simpa using hj2⟩ = rest.get ⟨j2, hj2⟩ from rfl,
            stemsBefore_cons, ← List.append_assoc]
          rw [List.append_assoc, ← seenNext_mem]
          exact hmem2
      · rintro ⟨hj, hqne, hmem⟩
        right
        rw [harith]
        have hj2 : j2 < rest.length := by simpa using hj
        apply (ih (i + 1) (seenNext r seen) j2).mpr
        refine ⟨hj2, hqne, ?_⟩
        rw [seenNext_mem]
        rw [stemsBefore_cons] at hmem
        simpa using hmem

/-- Every row accepted by the validator is a normalised input row that
passes the three checks. -/
lemma mem_clean_iff (rows : List Row) (r : Row) :
    r ∈ (clean_and_validate rows).1 ↔
      acceptsRow r = true ∧ ∃ raw ∈ rows, r = normalizeRow raw := by
  unfold clean_and_validate
  rw [validateGo_fst]
  simp only [List.mem_filter, List.mem_map]
  constructor
  · rintro ⟨⟨raw, hraw, hr⟩, ha⟩
    exact ⟨ha, raw, hraw, hr.symm⟩
  · rintro ⟨ha, raw, hraw, hr⟩
    exact ⟨⟨raw, hraw, hr.symm⟩, ha⟩

/-! ### Helper lemmas: item construction -/

lemma nonEmptyOpts_length_le (r : Row) : (nonEmptyOpts r).length ≤ 5 := by
  have h := List.length_filter_le (fun p : String × String => p.2 != "")
    (letters.map (fun lab => (lab, pyStrip (getOpt r lab))))
  simpa [nonEmptyOpts, letters] using h

lemma buildItem_disp (r : Row)
    (shuffle : List (String × String) → List (String × String)) :
    (buildItem r shuffle).disp =
      ((letters.take (shuffle (nonEmptyOpts r)).length).zip (shuffle (nonEmptyOpts r))).map
        (fun p => DispOpt.mk p.1 p.2.1 p.2.2) := rfl

lemma buildItem_correct_disp_def (r : Row)
    (shuffle : List (String × String) → List (String × String)) :
    (buildItem r shuffle).correct_disp =
      ((buildItem r shuffle).disp.find?
        (fun d => d.orig_lab == pyUpper r.correct_answer)).map DispOpt.disp_lab := rfl

/-- The display letters of a built item are the first `k` letters, where
`k` is the number of non-empty options. -/
lemma buildItem_disp_labels (r : Row)
    (shuffle : List (String × String) → List (String × String))
    (hsh : (shuffle (nonEmptyOpts r)).Perm (nonEmptyOpts r)) :
    (buildItem r shuffle).disp.map DispOpt.disp_lab =
      letters.take (nonEmptyOpts r).length := by
  have hlen : (shuffle (nonEmptyOpts r)).length = (nonEmptyOpts r).length := hsh.length_eq
  have hle : (nonEmptyOpts r).length ≤ 5 := nonEmptyOpts_length_le r
  rw [buildItem_disp, List.map_map]
  have hcomp : (DispOpt.disp_lab ∘ fun p : String × (String × String) =>
      DispOpt.mk p.1 p.2.1 p.2.2) = Prod.fst := rfl
  rw [hcomp, List.map_fst_zip, hlen]
  rw [List.length_take, hlen]
  have h5 : letters.length = 5 := rfl
  omega

/-- The `(original letter, text)` pairs of the display options are exactly
the shuffled non-empty options, in shuffled order. -/
lemma buildItem_disp_pairs (r : Row)
    (shuffle : List (String × String) → List (String × String))
    (hsh : (shuffle (nonEmptyOpts r)).Perm (nonEmptyOpts r)) :
    (buildItem r shuffle).disp.map (fun d => (d.orig_lab, d.text)) =
      shuffle (nonEmptyOpts r) := by
  have hlen : (shuffle (nonEmptyOpts r)).length = (nonEmptyOpts r).length := hsh.length_eq
  have hle : (nonEmptyOpts r).length ≤ 5 := nonEmptyOpts_length_le r
  rw [buildItem_disp, List.map_map]
  have hcomp : ((fun d : DispOpt => (d.orig_lab, d.text)) ∘
      fun p : String × (String × String) => DispOpt.mk p.1 p.2.1 p.2.2) = Prod.snd := by
    funext p
    rfl
  rw [hcomp, List.map_snd_zip]
  rw [List.length_take, hlen]
  have h5 : letters.length = 5 := rfl
  omega

/-- Membership in `nonEmptyOpts` determines the text from the letter. -/
lemma nonEmptyOpts_fst_det (r : Row) (lab txt : String)
    (h : (lab, txt) ∈ nonEmptyOpts r) :
    txt = pyStrip (getOpt r lab) ∧ txt ≠ "" := by
  unfold nonEmptyOpts at h
  rw [List.mem_filter] at h
  obtain ⟨hmem, hne⟩ := h
  simp only [List.mem_map] at hmem
  obtain ⟨lab2, hlab2, he⟩ := hmem
  obtain ⟨rfl, rfl⟩ := Prod.mk.inj he
  exact ⟨rfl, by simpa using hne⟩

/-- The correct letter of an accepted row, with its text, is one of the
non-empty options. -/
lemma correct_mem_nonEmptyOpts (r : Row) (ha : acceptsRow r = true) :
    (pyUpper (pyStrip r.correct_answer),
      pyStrip (getOpt r (pyUpper (pyStrip r.correct_answer)))) ∈ nonEmptyOpts r := by
  simp only [acceptsRow, Bool.and_eq_true, bne_iff_ne] at ha
  obtain ⟨-, hca, hopt⟩ := ha
  rw [List.elem_iff] at hca
  unfold nonEmptyOpts
  rw [List.mem_filter]
  refine ⟨List.mem_map.mpr ⟨pyUpper (pyStrip r.correct_answer), hca, rfl⟩, by simpa using hopt⟩

/-! ### Helper lemmas: sampling, filtering, scoring -/

lemma prepare_items_length (df : List Row) (domains : List String) (num : Nat)
    (sample : List Row → Nat → List Row)
    (shuffle : Nat → List (String × String) → List (String × String))
    (hsample : ∀ (l : List Row) (n : Nat), n ≤ l.length → (sample l n).length = n) :
    (prepare_items df domains num sample shuffle).length =
      min num (domainFiltered domains df).length := by
  unfold prepare_items
  by_cases hemp : (domainFiltered domains df).isEmpty
  · rw [if_pos hemp]
    have h0 : (domainFiltered domains df).length = 0 := by
      rw [List.isEmpty_iff.mp hemp]
      rfl
    simp [h0]
  · rw [if_neg hemp]
    have hle : (if (domainFiltered domains df).length < num then
        (domainFiltered domains df).length else num) ≤ (domainFiltered domains df).length := by
      split <;> omega
    rw [List.length_map, List.enum_length, hsample _ _ hle]
    split <;> omega

/-- Folding the submission step from any starting score adds the number of
correct submissions. -/
lemma sessionScore_foldl (subs : List (String × Option String)) :
    ∀ a : Nat, subs.foldl (fun sc p => scoreStep sc p.1 p.2) a =
      a + subs.countP (fun p => isCorrectSub p.1 p.2) := by
  induction subs with
  | nil => intro a; simp
  | cons s rest ih =>
    intro a
    rw [List.foldl_cons, ih, List.countP_cons]
    unfold scoreStep
    by_cases h : isCorrectSub s.1 s.2 = true
    · rw [if_pos h, if_pos h]
      omega
    · rw [if_neg h, if_neg h]
      omega

/-! ### Helper lemmas: prefix tests -/

lemma strStarts_head (a : Char) (ps l : List Char) (h : strStarts (a :: ps) l = true) :
    ∃ t, l = a :: t := by
  cases l with
  | nil => simp [strStarts] at h
  | cons c cs =>
    simp only [strStarts, Bool.and_eq_true, beq_iff_eq] at h
    exact ⟨cs, by rw [h.1]⟩

lemma pyStartsWith_first_char (s p : String) (c : Char) (t : List Char)
    (hp : p.data = c :: t) (h : pyStartsWith s p = true) : ∃ u, s.data = c :: u := by
  unfold pyStartsWith at h
  rw [hp] at h
  exact strStarts_head c t s.data h

/-- Two candidate prefixes beginning with different characters cannot both
match. -/
lemma pyStartsWith_head_ne (s p q : String) (c d : Char) (tp tq : List Char)
    (hp : p.data = c :: tp) (hq : q.data = d :: tq) (hne : c ≠ d)
    (h : pyStartsWith s p = true) : pyStartsWith s q = false := by
  obtain ⟨u, hu⟩ := pyStartsWith_first_char s p c tp hp h
  unfold pyStartsWith
  rw [hq, hu]
  rw [Bool.eq_false_iff]
  intro hcon
  simp only [strStarts, Bool.and_eq_true, beq_iff_eq] at hcon
  exact hne hcon.1.symm

/-- A prefix starting with a character different from the string's first
character does not match. -/
lemma pyStartsWith_false_of_head (v p : String) (c d : Char) (u t : List Char)
    (hv : v.data = c :: u) (hp : p.data = d :: t) (hne : d ≠ c) :
    pyStartsWith v p = false := by
  unfold pyStartsWith
  rw [hp, hv, Bool.eq_false_iff]
  intro hcon
  simp only [strStarts, Bool.and_eq_true, beq_iff_eq] at hcon
  exact hne hcon.1

/-- A string whose data starts with a character is non-empty. -/
lemma ne_empty_of_head (v : String) (c : Char) (u : List Char)
    (hv : v.data = c :: u) : v ≠ "" := by
  intro h
  rw [h] at hv
  simp at hv

/-! ### Claim theorems -/

/-- Claim C1, counterexample to the claim as stated: in the two-row bank
below, row 0 (correct answer `"F"`) is NOT accepted, yet row 1 — whose stem
equals row 0's stem — IS reported as a duplicate.  So the duplicate check
does not compare against previously *accepted* stems: it compares against
the stems of all previously processed rows with a non-empty question. -/
theorem C1_counterexample :
    (1, "Duplicate Question stem") ∈ (clean_and_validate [cexRowF, okRow]).2.1 ∧
    normalizeRow cexRowF ∉ (clean_and_validate [cexRowF, okRow]).1 ∧
    normalizeRow okRow ∈ (clean_and_validate [cexRowF, okRow]).1 := by
  decide

/-- Claim C1 (amended): a raw row is present in the validated clean record
set iff its normalised question is non-empty, its stripped-and-uppercased
`Correct_Answer` is one of A–E, and the option at that letter is non-empty
(acceptance is pointwise — a duplicate stem never excludes a row); and a
duplicate-stem issue is reported for row `j` exactly when its lower-cased
stem equals the lower-cased stem of some earlier row with a non-empty
question, whether or not that earlier row was accepted. -/
theorem C1_row_acceptance (rows : List Row) :
    (clean_and_validate rows).1 = (rows.map normalizeRow).filter acceptsRow ∧
    ∀ j, ((j, "Duplicate Question stem") ∈ (clean_and_validate rows).2.1 ↔
      ∃ hj : j < (rows.map normalizeRow).length,
        ((rows.map normalizeRow).get ⟨j, hj⟩).question ≠ "" ∧
        pyLower (((rows.map normalizeRow).get ⟨j, hj⟩).question) ∈
          stemsBefore (rows.map normalizeRow) j) := by
  constructor
  · unfold clean_and_validate
    exact validateGo_fst 0 _ []
  · intro j
    have h := validateGo_dup (rows.map normalizeRow) 0 [] j
    rw [Nat.zero_add] at h
    unfold clean_and_validate
    simpa using h

/-- Claim C1 witness: on a bank repeating the same valid row, the amended
theorem yields the duplicate-stem issue for row 1. -/
theorem C1_witness :
    (1, "Duplicate Question stem") ∈ (clean_and_validate [okRow, okRow]).2.1 :=
  ((C1_row_acceptance [okRow, okRow]).2 1).mpr ⟨by decide, by decide, by decide⟩

/-- Claim C6: validation is total over the rows — every row is either
present in the clean record set or contributes an issue recorded under its
own row identifier; the issue list is ordered by row identifier; and the
clean set is the order-preserving filter of the normalised rows. -/
theorem C6_total_validation (rows : List Row) :
    (∀ j, j < (rows.map normalizeRow).length →
        ((rows.map normalizeRow).getD j emptyRow ∈ (clean_and_validate rows).1 ∨
         ∃ d, (j, d) ∈ (clean_and_validate rows).2.1)) ∧
    (clean_and_validate rows).2.1.Pairwise (fun a b => a.1 ≤ b.1) ∧
    (clean_and_validate rows).1 = (rows.map normalizeRow).filter acceptsRow := by
  have hfilt : (clean_and_validate rows).1 = (rows.map normalizeRow).filter acceptsRow := by
    unfold clean_and_validate
    exact validateGo_fst 0 _ []
  refine ⟨?_, ?_, hfilt⟩
  · intro j hj
    have hget : (rows.map normalizeRow).getD j emptyRow =
        (rows.map normalizeRow).get ⟨j, hj⟩ := by
      rw [List.getD_eq_getElem _ _ hj]
      rfl
    rw [hget]
    by_cases ha : acceptsRow ((rows.map normalizeRow).get ⟨j, hj⟩) = true
    · left
      rw [hfilt]
      exact List.mem_filter.mpr ⟨List.get_mem _ _ _, ha⟩
    · right
      have ha2 : acceptsRow ((rows.map normalizeRow).get ⟨j, hj⟩) = false := by
        simpa using ha
      have h := validateGo_dropped (rows.map normalizeRow) 0 [] j hj ha2
      rw [Nat.zero_add] at h
      unfold clean_and_validate
      exact h
  · have h := validateGo_sorted (rows.map normalizeRow) 0 []
    unfold clean_and_validate
    exact h

/-- Claim C6 witness: on a one-row bank whose row fails validation, the row
is reported under identifier 0 (or accepted). -/
theorem C6_witness :
    ([cexRowF].map normalizeRow).getD 0 emptyRow ∈ (clean_and_validate [cexRowF]).1 ∨
    ∃ d, (0, d) ∈ (clean_and_validate [cexRowF]).2.1 :=
  (C6_total_validation [cexRowF]).1 0 (by decide)

/-- Claim C7, counterexample to the claim as stated: the row below with
`Correct_Answer` cell `"a"` is accepted, but the stored record carries the
letter `"a"`, which is not one of the uppercase letters A–E and does not
index an option field.  The validator uppercases the letter only in its
local check; the stored field is not rewritten. -/
theorem C7_counterexample :
    normalizeRow cexRowLower ∈ (clean_and_validate [cexRowLower]).1 ∧
    (normalizeRow cexRowLower).correct_answer = "a" ∧
    (normalizeRow cexRowLower).correct_answer ∉ letters ∧
    getOpt (normalizeRow cexRowLower) ((normalizeRow cexRowLower).correct_answer) = "" := by
  decide

/-- Claim C7 (amended): every record in the clean set carries a
`Correct_Answer` whose stripped-and-uppercased form is one of A–E and
indexes a non-empty option; moreover the stored field is already stripped,
so uppercasing it at use suffices. -/
theorem C7_correct_letter_invariant (rows : List Row) (r : Row)
    (hr : r ∈ (clean_and_validate rows).1) :
    pyUpper (pyStrip r.correct_answer) ∈ letters ∧
    pyStrip (getOpt r (pyUpper (pyStrip r.correct_answer))) ≠ "" ∧
    pyStrip r.correct_answer = r.correct_answer := by
  obtain ⟨ha, raw, hraw, hE⟩ := (mem_clean_iff rows r).mp hr
  simp only [acceptsRow, Bool.and_eq_true, bne_iff_ne] at ha
  obtain ⟨hq, hca, hopt⟩ := ha
  rw [List.elem_iff] at hca
  refine ⟨hca, hopt, ?_⟩
  rw [hE]
  exact pyStrip_normCell _

/-- Claim C7 witness: instantiation of the amended invariant on a concrete
accepted row. -/
theorem C7_witness :
    pyUpper (pyStrip (normalizeRow okRow).correct_answer) ∈ letters ∧
    pyStrip (getOpt (normalizeRow okRow)
      (pyUpper (pyStrip (normalizeRow okRow).correct_answer))) ≠ "" ∧
    pyStrip (normalizeRow okRow).correct_answer = (normalizeRow okRow).correct_answer :=
  C7_correct_letter_invariant [okRow] (normalizeRow okRow) (by decide)

/-- Claim C2: for every record that passed validation and every shuffle
(modelled as an arbitrary permutation), the built item's
`correct_display_letter` is defined (never `none`), is the display letter
of the position whose original letter is the record's correct letter, and
the text at that position is the record's non-empty option text at that
letter. -/
theorem C2_correct_letter_remap (rows : List Row) (r : Row)
    (hr : r ∈ (clean_and_validate rows).1)
    (shuffle : List (String × String) → List (String × String))
    (hsh : ∀ l, (shuffle l).Perm l) :
    ∃ L, (buildItem r shuffle).correct_disp = some L ∧
      ∃ d ∈ (buildItem r shuffle).disp,
        d.disp_lab = L ∧ d.orig_lab = pyUpper r.correct_answer ∧
        d.text = pyStrip (getOpt r (pyUpper r.correct_answer)) ∧ d.text ≠ "" := by
  obtain ⟨ha, raw, hraw, hE⟩ := (mem_clean_iff rows r).mp hr
  have hstrip : pyStrip r.correct_answer = r.correct_answer := by
    rw [hE]
    exact pyStrip_normCell _
  have hsh2 := hsh (nonEmptyOpts r)
  have hmem : (pyUpper r.correct_answer,
      pyStrip (getOpt r (pyUpper r.correct_answer))) ∈ nonEmptyOpts r := by
    have h0 := correct_mem_nonEmptyOpts r ha
    rwa [hstrip] at h0
  have hpairs := buildItem_disp_pairs r shuffle hsh2
  have hmemsh : (pyUpper r.correct_answer,
      pyStrip (getOpt r (pyUpper r.correct_answer))) ∈ shuffle (nonEmptyOpts r) :=
    hsh2.mem_iff.mpr hmem
  have hmemmap : (pyUpper r.correct_answer,
      pyStrip (getOpt r (pyUpper r.correct_answer))) ∈
        (buildItem r shuffle).disp.map (fun d => (d.orig_lab, d.text)) := by
    rw [hpairs]
    exact hmemsh
  obtain ⟨d1, hd1mem, hd1eq⟩ := List.mem_map.mp hmemmap
  have hfind : ((buildItem r shuffle).disp.find?
      (fun d => d.orig_lab == pyUpper r.correct_answer)).isSome := by
    apply List.find?_isSome.mpr
    refine ⟨d1, hd1mem, ?_⟩
    have : d1.orig_lab = pyUpper r.correct_answer := congrArg Prod.fst hd1eq
    simp [this]
  obtain ⟨d0, hd0⟩ := Option.isSome_iff_exists.mp hfind
  have hd0p : (d0.orig_lab == pyUpper r.correct_answer) = true :=
    @List.find?_some DispOpt (fun d => d.orig_lab == pyUpper r.correct_answer) d0
      (buildItem r shuffle).disp hd0
  have hd0lab : d0.orig_lab = pyUpper r.correct_answer := beq_iff_eq.mp hd0p
  have hd0mem : d0 ∈ (buildItem r shuffle).disp := List.mem_of_find?_eq_some hd0
  have hd0pair : (d0.orig_lab, d0.text) ∈ nonEmptyOpts r := by
    apply hsh2.mem_iff.mp
    rw [← hpairs]
    exact List.mem_map.mpr ⟨d0, hd0mem, rfl⟩
  have hd0det := nonEmptyOpts_fst_det r d0.orig_lab d0.text hd0pair
  refine ⟨d0.disp_lab, ?_, d0, hd0mem, rfl, hd0lab, ?_, hd0det.2⟩
  · rw [buildItem_correct_disp_def, hd0]
    rfl
  · rw [hd0det.1, hd0lab]

/-- Claim C2 witness: instantiation on a concrete validated record with the
identity shuffle. -/
theorem C2_witness :
    ∃ L, (buildItem (normalizeRow okRow) (fun l => l)).correct_disp = some L ∧
      ∃ d ∈ (buildItem (normalizeRow okRow) (fun l => l)).disp,
        d.disp_lab = L ∧
        d.orig_lab = pyUpper (normalizeRow okRow).correct_answer ∧
        d.text = pyStrip (getOpt (normalizeRow okRow)
          (pyUpper (normalizeRow okRow).correct_answer)) ∧
        d.text ≠ "" :=
  C2_correct_letter_remap [okRow] (normalizeRow okRow) (by decide) (fun l => l)
    (fun l => List.Perm.refl l)

/-- Claim C3: the multiset of option texts carried by a built item equals
the multiset of non-empty option texts of the source record — no text is
invented, lost, or duplicated by the shuffle and re-lettering. -/
theorem C3_option_permutation (r : Row)
    (shuffle : List (String × String) → List (String × String))
    (hsh : ∀ l, (shuffle l).Perm l) :
    ((buildItem r shuffle).disp.map DispOpt.text).Perm
      ((nonEmptyOpts r).map Prod.snd) := by
  have hsh2 := hsh (nonEmptyOpts r)
  have htexts : (buildItem r shuffle).disp.map DispOpt.text =
      (shuffle (nonEmptyOpts r)).map Prod.snd := by
    rw [← buildItem_disp_pairs r shuffle hsh2, List.map_map]
    rfl
  rw [htexts]
  exact hsh2.map Prod.snd

/-- Claim C3 witness: instantiation on a concrete record with the identity
shuffle. -/
theorem C3_witness :
    ((buildItem wRowEthics (fun l => l)).disp.map DispOpt.text).Perm
      ((nonEmptyOpts wRowEthics).map Prod.snd) :=
  C3_option_permutation wRowEthics (fun l => l) (fun l => List.Perm.refl l)

/-- Claim C4: for a record with exactly `k` non-empty options, the built
item's display letters are exactly the first `k` letters of A–E in order,
each used exactly once, for every shuffle. -/
theorem C4_dense_relettering (r : Row) (k : Nat)
    (hk : (nonEmptyOpts r).length = k) (_hk1 : 1 ≤ k)
    (shuffle : List (String × String) → List (String × String))
    (hsh : ∀ l, (shuffle l).Perm l) :
    (buildItem r shuffle).disp.map DispOpt.disp_lab = letters.take k ∧
    ((buildItem r shuffle).disp.map DispOpt.disp_lab).Nodup ∧
    ((buildItem r shuffle).disp.map DispOpt.disp_lab).length = k := by
  have h := buildItem_disp_labels r shuffle (hsh _)
  rw [hk] at h
  have hk5 : k ≤ 5 := hk ▸ nonEmptyOpts_length_le r
  refine ⟨h, ?_, ?_⟩
  · rw [h]
    exact List.Nodup.sublist (List.take_sublist k letters) (by decide)
  · rw [h, List.length_take]
    have h5 : letters.length = 5 := rfl
    omega

/-- Claim C4 witness: a concrete two-option record uses exactly the display
letters A and B. -/
theorem C4_witness :
    (buildItem wRowEthics (fun l => l)).disp.map DispOpt.disp_lab = letters.take 2 ∧
    ((buildItem wRowEthics (fun l => l)).disp.map DispOpt.disp_lab).Nodup ∧
    ((buildItem wRowEthics (fun l => l)).disp.map DispOpt.disp_lab).length = 2 :=
  C4_dense_relettering wRowEthics 2 (by decide) (by decide) (fun l => l)
    (fun l => List.Perm.refl l)

/-- Claim C5: `prepare_items` returns exactly `min count available` items,
where `available` is the size of the domain-filtered record set (all
records when the filter is empty or denotes "all"); an empty filtered set
yields the empty list, and the count never exceeds the request.  `sample`
is constrained by the pandas contract: drawing `n ≤ len` rows yields
exactly `n` rows. -/
theorem C5_count_clamping (df : List Row) (domains : List String) (num : Nat)
    (sample : List Row → Nat → List Row)
    (shuffle : Nat → List (String × String) → List (String × String))
    (_hnum : 1 ≤ num)
    (hsample : ∀ (l : List Row) (n : Nat), n ≤ l.length → (sample l n).length = n) :
    (prepare_items df domains num sample shuffle).length =
      min num (domainFiltered domains df).length ∧
    ((domainFiltered domains df).length = 0 →
      prepare_items df domains num sample shuffle = []) := by
  refine ⟨prepare_items_length df domains num sample shuffle hsample, ?_⟩
  intro h0
  unfold prepare_items
  rw [if_pos]
  rwa [List.isEmpty_iff, ← List.length_eq_zero]

/-- Claim C5 witness: requesting 5 items from a single Ethics record yields
`min 5 1` items. -/
theorem C5_witness :
    (prepare_items [wRowEthics] ["Ethics"] 5 (fun l n => l.take n)
        (fun _ l => l)).length =
      min 5 (domainFiltered ["Ethics"] [wRowEthics]).length :=
  (C5_count_clamping [wRowEthics] ["Ethics"] 5 (fun l n => l.take n) (fun _ l => l)
    (by decide)
    (fun l n h => (List.length_take n l).trans (Nat.min_eq_left h))).1

/-- Claim C8: a submission is correct exactly when the submitted display
letter equals the item's correct display letter by string comparison; the
session score equals the number of correct submissions, independently of
order; and a submission step never decreases the score. -/
theorem C8_scoring (subs : List (String × Option String)) :
    sessionScore subs = subs.countP (fun p => isCorrectSub p.1 p.2) ∧
    (∀ (c : String) (cd : Option String), isCorrectSub c cd = true ↔ c = cd.getD "") ∧
    (∀ subs2 : List (String × Option String),
      subs2.Perm subs → sessionScore subs2 = sessionScore subs) ∧
    (∀ (sc : Nat) (c : String) (cd : Option String), sc ≤ scoreStep sc c cd) := by
  have hc : ∀ l : List (String × Option String),
      sessionScore l = l.countP (fun p => isCorrectSub p.1 p.2) := by
    intro l
    unfold sessionScore
    rw [sessionScore_foldl]
    omega
  refine ⟨hc subs, ?_, ?_, ?_⟩
  · intro c cd
    simp [isCorrectSub]
  · intro subs2 hperm
    rw [hc subs2, hc subs]
    exact hperm.countP_eq _
  · intro sc c cd
    unfold scoreStep
    split <;> omega

/-- Claim C8 witness: two submissions of which one is correct yield score 1,
and reordering them does not change the score. -/
theorem C8_witness :
    sessionScore [("A", some "A"), ("B", some "C")] = 1 ∧
    sessionScore [("B", some "C"), ("A", some "A")] =
      sessionScore [("A", some "A"), ("B", some "C")] :=
  ⟨(C8_scoring [("A", some "A"), ("B", some "C")]).1.trans (by decide),
   (C8_scoring [("A", some "A"), ("B", some "C")]).2.2.1
     [("B", some "C"), ("A", some "A")] (by decide)⟩

/-- Claim C10 (implicit): if any requested domain title-cases to `"All"`
(any letter casing, even alongside specific domains), `prepare_items`
applies no domain filtering at all; filtering occurs exactly when the list
is non-empty and no title-cased element equals `"All"`. -/
theorem C10_all_disables_filtering (domains : List String) (df : List Row)
    (num : Nat) (sample : List Row → Nat → List Row)
    (shuffle : Nat → List (String × String) → List (String × String)) :
    ((∃ d ∈ domains, pyTitle d = "All") →
      domainFiltered domains df = df ∧
      prepare_items df domains num sample shuffle =
        prepare_items df [] num sample shuffle) ∧
    (domains ≠ [] → (∀ d ∈ domains, pyTitle d ≠ "All") →
      domainFiltered domains df =
        df.filter (fun r => (domains.map pyLower).contains (pyLower r.domain))) := by
  constructor
  · rintro ⟨d, hd, hall⟩
    have hcontains : (domains.map pyTitle).contains "All" = true := by
      rw [List.elem_iff]
      exact List.mem_map.mpr ⟨d, hd, hall⟩
    have hfilt : domainFiltered domains df = df := by
      unfold domainFiltered
      rw [hcontains]
      simp
    have hnil : domainFiltered [] df = df := by
      unfold domainFiltered
      simp
    refine ⟨hfilt, ?_⟩
    unfold prepare_items
    rw [hfilt, hnil]
  · intro hne hnall
    have h1 : domains.isEmpty = false := by
      rw [Bool.eq_false_iff, Ne, List.isEmpty_iff]
      exact hne
    have h2 : (domains.map pyTitle).contains "All" = false := by
      rw [Bool.eq_false_iff, Ne, List.elem_iff]
      intro hmem
      obtain ⟨d, hd, hall⟩ := List.mem_map.mp hmem
      exact hnall d hd hall
    unfold domainFiltered
    rw [h1, h2]
    simp

/-- Claim C10 witness: the filter list `["Ethics", "all"]` disables
filtering entirely. -/
theorem C10_witness :
    domainFiltered ["Ethics", "all"] [wRowEthics, okRow] = [wRowEthics, okRow] :=
  ((C10_all_disables_filtering ["Ethics", "all"] [wRowEthics, okRow] 3
      (fun l n => l.take n) (fun _ l => l)).1 ⟨"all", by decide, by decide⟩).1

/-- Claim C9: domain canonicalisation maps every value into the closed set
of four canonical labels plus the empty string, by case-insensitive prefix
match ("ethic" → Ethics, "assess" → Assessment, "interven"/"treat"/"therapy"
→ Interventions, "comm" → Communication); values matching no prefix map to
the empty string; and the stored domain never affects row acceptance. -/
theorem C9_domain_canonicalization (s : String) :
    canon_domain s ∈ ["Ethics", "Assessment", "Interventions", "Communication", ""] ∧
    (pyStartsWith (pyLower (pyStrip s)) "ethic" = true → canon_domain s = "Ethics") ∧
    (pyStartsWith (pyLower (pyStrip s)) "assess" = true → canon_domain s = "Assessment") ∧
    ((pyStartsWith (pyLower (pyStrip s)) "interven" ||
      pyStartsWith (pyLower (pyStrip s)) "treat" ||
      pyStartsWith (pyLower (pyStrip s)) "therapy") = true →
      canon_domain s = "Interventions") ∧
    (pyStartsWith (pyLower (pyStrip s)) "comm" = true →
      canon_domain s = "Communication") ∧
    (pyStartsWith (pyLower (pyStrip s)) "ethic" = false →
     pyStartsWith (pyLower (pyStrip s)) "assess" = false →
     pyStartsWith (pyLower (pyStrip s)) "interven" = false →
     pyStartsWith (pyLower (pyStrip s)) "treat" = false →
     pyStartsWith (pyLower (pyStrip s)) "therapy" = false →
     pyStartsWith (pyLower (pyStrip s)) "comm" = false →
     canon_domain s = "") ∧
    (∀ (r : Row) (d : String), acceptsRow { r with domain := d } = acceptsRow r) := by
  have compE : pyStartsWith (pyLower (pyStrip s)) "ethic" = true →
      canon_domain s = "Ethics" := by
    intro h
    obtain ⟨u, hu⟩ := pyStartsWith_first_char _ "ethic" 'e' "thic".data rfl h
    have h0 := ne_empty_of_head _ 'e' u hu
    simp [canon_domain, h0, h]
  have compA : pyStartsWith (pyLower (pyStrip s)) "assess" = true →
      canon_domain s = "Assessment" := by
    intro h
    obtain ⟨u, hu⟩ := pyStartsWith_first_char _ "assess" 'a' "ssess".data rfl h
    have h0 := ne_empty_of_head _ 'a' u hu
    have hE := pyStartsWith_false_of_head _ "ethic" 'a' 'e' u "thic".data hu rfl (by decide)
    simp [canon_domain, h0, hE, h]
  have compI : (pyStartsWith (pyLower (pyStrip s)) "interven" ||
      pyStartsWith (pyLower (pyStrip s)) "treat" ||
      pyStartsWith (pyLower (pyStrip s)) "therapy") = true →
      canon_domain s = "Interventions" := by
    intro h
    have hor := h
    simp only [Bool.or_eq_true] at h
    have hkey : ∃ c u, (pyLower (pyStrip s)).data = c :: u ∧ c ≠ 'e' ∧ c ≠ 'a' := by
      rcases h with (h1 | h1) | h1
      · obtain ⟨u, hu⟩ := pyStartsWith_first_char _ "interven" 'i' "nterven".data rfl h1
        exact ⟨'i', u, hu, by decide, by decide⟩
      · obtain ⟨u, hu⟩ := pyStartsWith_first_char _ "treat" 't' "reat".data rfl h1
        exact ⟨'t', u, hu, by decide, by decide⟩
      · obtain ⟨u, hu⟩ := pyStartsWith_first_char _ "therapy" 't' "herapy".data rfl h1
        exact ⟨'t', u, hu, by decide, by decide⟩
    obtain ⟨c, u, hu, hce, hca2⟩ := hkey
    have h0 := ne_empty_of_head _ c u hu
    have hE := pyStartsWith_false_of_head _ "ethic" c 'e' u "thic".data hu rfl
      (fun hx => hce hx.symm)
    have hA := pyStartsWith_false_of_head _ "assess" c 'a' u "ssess".data hu rfl
      (fun hx => hca2 hx.symm)
    simp [canon_domain, h0, hE, hA, hor]
  have compC : pyStartsWith (pyLower (pyStrip s)) "comm" = true →
      canon_domain s = "Communication" := by
    intro h
    obtain ⟨u, hu⟩ := pyStartsWith_first_char _ "comm" 'c' "omm".data rfl h
    have h0 := ne_empty_of_head _ 'c' u hu
    have hE := pyStartsWith_false_of_head _ "ethic" 'c' 'e' u "thic".data hu rfl (by decide)
    have hA := pyStartsWith_false_of_head _ "assess" 'c' 'a' u "ssess".data hu rfl (by decide)
    have hI1 := pyStartsWith_false_of_head _ "interven" 'c' 'i' u "nterven".data hu rfl
      (by decide)
    have hI2 := pyStartsWith_false_of_head _ "treat" 'c' 't' u "reat".data hu rfl (by decide)
    have hI3 := pyStartsWith_false_of_head _ "therapy" 'c' 't' u "herapy".data hu rfl
      (by decide)
    simp [canon_domain, h0, hE, hA, hI1, hI2, hI3, h]
  have compNone : pyStartsWith (pyLower (pyStrip s)) "ethic" = false →
      pyStartsWith (pyLower (pyStrip s)) "assess" = false →
      pyStartsWith (pyLower (pyStrip s)) "interven" = false →
      pyStartsWith (pyLower (pyStrip s)) "treat" = false →
      pyStartsWith (pyLower (pyStrip s)) "therapy" = false →
      pyStartsWith (pyLower (pyStrip s)) "comm" = false →
      canon_domain s = "" := by
    intro hE hA hI1 hI2 hI3 hC
    by_cases h0 : pyLower (pyStrip s) = ""
    · simp [canon_domain, h0]
    · have k1 : pyLower (pyStrip s) ≠ "ethics" := by
        intro hx
        rw [hx] at hE
        exact absurd (by decide : pyStartsWith "ethics" "ethic" = true) (by simp [hE])
      have k2 : pyLower (pyStrip s) ≠ "assessment" := by
        intro hx
        rw [hx] at hA
        exact absurd (by decide : pyStartsWith "assessment" "assess" = true) (by simp [hA])
      have k3 : pyLower (pyStrip s) ≠ "interventions" := by
        intro hx
        rw [hx] at hI1
        exact absurd (by decide : pyStartsWith "interventions" "interven" = true)
          (by simp [hI1])
      have k4 : pyLower (pyStrip s) ≠ "communication" := by
        intro hx
        rw [hx] at hC
        exact absurd (by decide : pyStartsWith "communication" "comm" = true) (by simp [hC])
      simp [canon_domain, CANON_DOMAINS, h0, hE, hA, hI1, hI2, hI3, hC, k1, k2, k3, k4]
  have compRange :
      canon_domain s ∈ ["Ethics", "Assessment", "Interventions", "Communication", ""] := by
    by_cases hE : pyStartsWith (pyLower (pyStrip s)) "ethic" = true
    · rw [compE hE]
      decide
    · by_cases hA : pyStartsWith (pyLower (pyStrip s)) "assess" = true
      · rw [compA hA]
        decide
      · by_cases hI : (pyStartsWith (pyLower (pyStrip s)) "interven" ||
            pyStartsWith (pyLower (pyStrip s)) "treat" ||
            pyStartsWith (pyLower (pyStrip s)) "therapy") = true
        · rw [compI hI]
          decide
        · by_cases hC : pyStartsWith (pyLower (pyStrip s)) "comm" = true
          · rw [compC hC]
            decide
          · have hIf := Bool.eq_false_iff.mpr hI
            simp only [Bool.or_eq_false_iff] at hIf
            obtain ⟨⟨hI1, hI2⟩, hI3⟩ := hIf
            rw [compNone (Bool.eq_false_iff.mpr hE) (Bool.eq_false_iff.mpr hA)
              hI1 hI2 hI3 (Bool.eq_false_iff.mpr hC)]
            decide
  exact ⟨compRange, compE, compA, compI, compC, compNone, fun r d => rfl⟩

/-- Claim C9 witness: a value starting with "treat" canonicalises to
Interventions, and an unmatched value to the empty string. -/
theorem C9_witness :
    canon_domain " Treatment planning " = "Interventions" ∧
    canon_domain "misc" = "" :=
  ⟨(C9_domain_canonicalization " Treatment planning ").2.2.2.1 (by decide),
   (C9_domain_canonicalization "misc").2.2.2.2.2.1 (by decide) (by decide) (by decide)
     (by decide) (by decide) (by decide)⟩

end NPEQuiz
